import Mathlib

/-!
Verification of the go-metrics recording client and its query engine.

The Go source is shallowly embedded: `map[string]string` becomes an
association list with Go-map lookup/insert semantics, `float64` values that
are only stored and compared (never computed with) become `ℚ`, fallible
code (Go panics) returns `Option`, and the `TestFailer` funnel is modelled
by an `Except` result carrying the message handed to the reporter.
-/

namespace GoMetrics

/-- Go `map[string]string`, modelled as an association list. Go map keys are
unique; the list order stands in for Go's (unspecified) iteration order. -/
abbrev TagMap := List (String × String)

/-- Lookup `m[k]`: first entry with key `k` (maps built by `mapInsert` have at
most one). -/
def mapGet : TagMap → String → Option String
  | [], _ => none
  | (k, v) :: rest, key => if key = k then some v else mapGet rest key

/-- Go map assignment `m[k] = v`: replace the entry in place if the key is
present, otherwise add a new one. -/
def mapInsert : TagMap → String → String → TagMap
  | [], k, v => [(k, v)]
  | (k1, v1) :: rest, k, v =>
    if k = k1 then (k, v) :: rest else (k1, v1) :: mapInsert rest k v

/-- Go loop `for k, v := range src { dst[k] = v }`. -/
def mapCopyInto (dst src : TagMap) : TagMap :=
  src.foldl (fun acc p => mapInsert acc p.1 p.2) dst

/-- From the source (`combine`): build a fresh map, insert every entry of
`original`, then every entry of `override` (so `override` wins on a shared
key). -/
def combine (original override : TagMap) : TagMap :=
  mapCopyInto (mapCopyInto [] original) override

/-- Left-biased choice on options, used to state lookup lemmas. -/
def orO : Option String → Option String → Option String
  | some v, _ => some v
  | none, b => b

/-- Lookup in the reversed list: the last matching entry of `m` wins. This is
how a plain list acts when folded into a map entry by entry. -/
def revGet (m : TagMap) (key : String) : Option String :=
  mapGet m.reverse key

/-- The keys of a map, in order. -/
def keysOf (m : TagMap) : List String := m.map Prod.fst

/-- A tag map with no repeated key, the invariant every real Go map enjoys. -/
def NodupKeys (m : TagMap) : Prop := (keysOf m).Nodup

/-- The two fields of `statsd.Event` the recorder reads (`Title`, `Text`). -/
structure Event where
  title : String
  text : String
deriving DecidableEq

/-- `MetricCall`: name, value, rate and tags of one recorded metric. Values
and rates are `float64` in Go; they are only stored and compared here, never
computed with, so `ℚ` represents them exactly. -/
structure MetricCall where
  name : String
  value : ℚ
  rate : ℚ
  tagMap : TagMap
deriving DecidableEq

/-- `EventCall`: one recorded event and its tags. -/
structure EventCall where
  event : Event
  tagMap : TagMap
deriving DecidableEq

/-- `Call`: the closed union behind the `fmt.Stringer`-typed log entries. -/
inductive Call where
  | metric (m : MetricCall)
  | event (e : EventCall)
deriving DecidableEq

/-- From the source (`buildTag`): render one tag as `key:value`. -/
def buildTag (k v : String) : String := k ++ ":" ++ v

/-- From the source (`mapToStrings`): render a tag map entry by entry. -/
def mapToStrings (m : TagMap) : List String := m.map fun p => buildTag p.1 p.2

/-- Go `sort.Strings`: sort ascending lexicographically. -/
def sortStrings (l : List String) : List String := l.insertionSort (· ≤ ·)

/-- Go `fmt`'s `%v` of a `[]string`: the elements space-separated in square
brackets. -/
def renderSlice (l : List String) : String := "[" ++ String.intercalate " " l ++ "]"

/-- Fractional decimal digits of `r / d` (with `r < d`), with enough fuel to
be exact whenever `d` has only the factors 2 and 5 — which covers every value
these theorems evaluate. -/
def fracDigits : ℕ → ℕ → ℕ → String
  | 0, _, _ => ""
  | _ + 1, 0, _ => ""
  | fuel + 1, r, d => (Nat.digitChar (r * 10 / d)).toString ++ fracDigits fuel (r * 10 % d) d

/-- Go `fmt`'s `%v` of a small `float64`: the shortest decimal form, with no
trailing `.0` on integral values. -/
def renderQ (q : ℚ) : String :=
  if q.den = 1 then toString q.num
  else
    (if q.num < 0 then "-" else "") ++ toString (q.num.natAbs / q.den) ++ "." ++
      fracDigits 64 (q.num.natAbs % q.den) q.den

/-- `MetricCall.String` from the source: `name:value(rate)[tags]`, with the
rate segment only when the rate is not 1.0 and the rendered tags sorted. -/
def MetricCall.callString (m : MetricCall) : String :=
  let tags := sortStrings (mapToStrings m.tagMap)
  if m.rate ≠ 1 then
    m.name ++ ":" ++ renderQ m.value ++ "(" ++ renderQ m.rate ++ ")" ++ renderSlice tags
  else
    m.name ++ ":" ++ renderQ m.value ++ renderSlice tags

/-- `EventCall.String` from the source: `title:text[tags]`. -/
def EventCall.callString (e : EventCall) : String :=
  e.event.title ++ ":" ++ e.event.text ++ renderSlice (sortStrings (mapToStrings e.tagMap))

/-- `Call` rendering, dispatched per variant. -/
def Call.callString : Call → String
  | .metric m => m.callString
  | .event e => e.callString

/-- The tag map of either call variant. -/
def Call.tags : Call → TagMap
  | .metric m => m.tagMap
  | .event e => e.tagMap

/-- `stackInfo` from the source: every call's string form, newline-joined. -/
def stackInfo (calls : List Call) : String :=
  String.intercalate "\n" (calls.map Call.callString)

/-- Whether `pat` begins the list. -/
def startsWithL : List Char → List Char → Bool
  | _, [] => true
  | [], _ :: _ => false
  | c :: cs, p :: ps => c == p && startsWithL cs ps

/-- Whether `pat` occurs somewhere in the list. -/
def hasSubL (pat : List Char) : List Char → Bool
  | [] => startsWithL [] pat
  | c :: t => startsWithL (c :: t) pat || hasSubL pat t

/-- Go `strings.Contains s sub`. -/
def strContains (s sub : String) : Bool := hasSubL sub.toList s.toList

/-- Go `strings.Trim(s, " ")`: strip leading and trailing spaces. -/
def trimSpace (s : String) : String :=
  ⟨((s.toList.dropWhile fun c => c = ' ').reverse.dropWhile fun c => c = ' ').reverse⟩

/-- `RecorderClient`: a handle on the shared call log. The log itself is
threaded through the operations as an explicit `List Call`; `hasTest` stands
for whether a `TestFailer` is attached (`test != nil`). -/
structure RecorderClient where
  hasTest : Bool
  rate : ℚ
  tagMap : TagMap
deriving DecidableEq

/-- `NewRecorderClient`: empty log, rate 1.0, no tags, no test. -/
def NewRecorderClient : RecorderClient := ⟨false, 1, []⟩

/-- `RecorderClient.WithTags`: clone with the override-merge of the tags. -/
def RecorderClient.withTags (c : RecorderClient) (tags : TagMap) : RecorderClient :=
  { c with tagMap := combine c.tagMap tags }

/-- `RecorderClient.WithRate`: clone with a new sample rate (the tags are
copied through `combine` with an empty map, as in the source). -/
def RecorderClient.withRate (c : RecorderClient) (rate : ℚ) : RecorderClient :=
  { c with rate := rate, tagMap := combine [] c.tagMap }

/-- `RecorderClient.WithTest`: clone with a failure reporter attached. -/
def RecorderClient.withTest (c : RecorderClient) : RecorderClient :=
  { c with hasTest := true }

/-- The fresh tag-map copy `logCall` builds before taking the lock. -/
def tagMapCopy (m : TagMap) : TagMap := mapCopyInto [] m

/-- `RecorderClient.logCall`: append one `MetricCall` carrying the handle's
current rate and a snapshot of its tags. -/
def RecorderClient.logCall (c : RecorderClient) (log : List Call) (name : String)
    (value : ℚ) : List Call :=
  log ++ [Call.metric ⟨name, value, c.rate, tagMapCopy c.tagMap⟩]

/-- `RecorderClient.Count`: the `int64` value is coerced to `float64`
(`toFloat64`); exact for the magnitudes at play, hence the plain cast. -/
def RecorderClient.count (c : RecorderClient) (log : List Call) (name : String)
    (value : ℤ) : List Call :=
  c.logCall log name (value : ℚ)

/-- `RecorderClient.Incr`. -/
def RecorderClient.incr (c : RecorderClient) (log : List Call) (name : String) :
    List Call :=
  c.count log name 1

/-- `RecorderClient.Decr`. -/
def RecorderClient.decr (c : RecorderClient) (log : List Call) (name : String) :
    List Call :=
  c.count log name (-1)

/-- `RecorderClient.Gauge` (also the shape of `Histogram`). -/
def RecorderClient.gauge (c : RecorderClient) (log : List Call) (name : String)
    (value : ℚ) : List Call :=
  c.logCall log name value

/-- `RecorderClient.Event` from the source. The local copy is declared as
`var tagMapCopy map[string]string` — a nil map — and the copy loop writes into
it, which in Go panics ("assignment to entry in nil map") as soon as the
handle has at least one tag; `none` models that panic. With no tags the loop
body never runs and the `EventCall` is appended with the nil (empty) map. -/
def RecorderClient.event (c : RecorderClient) (log : List Call) (e : Event) :
    Option (List Call) :=
  match c.tagMap with
  | [] => some (log ++ [Call.event ⟨e, []⟩])
  | _ :: _ => none

/-- `RecorderClient.Fatalf`: panics when no test is attached; otherwise hands
the reporter the message followed by the dump of the entire shared call log
and the runtime call-stack blurb (opaque here as `buf`). -/
def RecorderClient.fatalf (c : RecorderClient) (log : List Call) (buf : String)
    (msg : String) : Option String :=
  if c.hasTest then some (msg ++ " Current metrics stack:\n" ++ stackInfo log ++ buf)
  else none

/-- The outcome of a failed check: either the reporter got `msg`, or there was
no reporter and the recorder panicked. -/
inductive Failure where
  | fatal (msg : String)
  | panicNoTest
deriving DecidableEq

/-- The `query` struct from the source. `test` holds the `RecorderClient` the
query was created from (the source stores it as a `TestFailer`). -/
structure Query where
  calls : List Call
  test : RecorderClient
  minCalls : ℤ
  checkMin : Bool
  history : String
deriving DecidableEq

/-- Result of a query operation: the narrowed query, or the failure the
reporter saw (the Go original stops the test there). -/
abbrev QRes := Except Failure Query

/-- A check failing through `q.test.Fatalf` directly (no history trace). -/
def Query.failWith (log : List Call) (buf : String) (q : Query) (msg : String) : Failure :=
  match q.test.fatalf log buf msg with
  | some m => .fatal m
  | none => .panicNoTest

/-- `query.fatalf` from the source: append the trace of the built query
before funnelling into the reporter. -/
def Query.fatalf (log : List Call) (buf : String) (q : Query) (msg : String) : Failure :=
  q.failWith log buf (msg ++ ". Query was '" ++ trimSpace q.history ++ "'.")

/-- `query.filter`: keep the calls satisfying the predicate, in order. -/
def Query.filterCalls (q : Query) (p : Call → Bool) : Query :=
  { q with calls := q.calls.filter p }

/-- `query.Reject`: fail when at least `minCalls` calls remain. -/
def Query.reject (log : List Call) (buf : String) (q : Query) : QRes :=
  if (q.calls.length : ℤ) ≥ q.minCalls then
    .error (q.fatalf log buf ("Expected fewer than " ++ toString q.minCalls ++
      " matching metrics but have '" ++
      String.intercalate "', '" (q.calls.map Call.callString) ++ "'"))
  else .ok q

/-- `query.Accept`: fail when fewer than `minCalls` calls remain; the
zero-calls message goes through `q.test.Fatalf` directly. -/
def Query.accept (log : List Call) (buf : String) (q : Query) : QRes :=
  if (q.calls.length : ℤ) < q.minCalls then
    if q.calls.length = 0 then
      .error (q.failWith log buf ("Expected at least " ++ toString q.minCalls ++
        " calls but have none"))
    else
      .error (q.fatalf log buf ("Expected at least " ++ toString q.minCalls ++
        " calls but only have '" ++
        String.intercalate "', '" (q.calls.map Call.callString) ++ "'"))
  else .ok q

/-- `query.MinTimes`: record the new threshold, then apply it at once when
`checkMin` is set. -/
def Query.minTimes (log : List Call) (buf : String) (q : Query) (num : ℤ) : QRes :=
  let q2 := { q with history := q.history ++ " minTimes(" ++ toString num ++ ")",
                     minCalls := num }
  if q2.checkMin then q2.accept log buf else .ok q2

/-- `query.Contains`: keep calls whose string form contains `component`. Its
fail-fast check calls `q.test.Fatalf` directly, not `q.fatalf`. -/
def Query.containsOp (log : List Call) (buf : String) (q : Query) (component : String) :
    QRes :=
  let q2 := { q with history := q.history ++ " contains(" ++ component ++ ")" }
  let q3 := q2.filterCalls fun call => strContains call.callString component
  if q3.checkMin ∧ (q3.calls.length : ℤ) < q3.minCalls then
    .error (q3.failWith log buf ("Expected metric or event to contain '" ++ component ++ "'"))
  else .ok q3

/-- The `query.ID` predicate: a metric matches by name, an event by title.
The source has no wildcard branch, so `"*"` only matches literally. -/
def idPred (id : String) : Call → Bool
  | .metric m => m.name == id
  | .event e => e.event.title == id

/-- `query.ID`. -/
def Query.idOp (log : List Call) (buf : String) (q : Query) (id : String) : QRes :=
  let q2 := { q with history := q.history ++ " id(" ++ id ++ ")" }
  let q3 := q2.filterCalls (idPred id)
  if q3.checkMin ∧ (q3.calls.length : ℤ) < q3.minCalls then
    .error (q3.fatalf log buf ("Expected metric or event with ID '" ++ id ++ "'"))
  else .ok q3

/-- The `query.Value` predicate: metrics by value, events never. -/
def valuePred (v : ℚ) : Call → Bool
  | .metric m => m.value == v
  | .event _ => false

/-- `query.Value`. -/
def Query.valueOp (log : List Call) (buf : String) (q : Query) (v : ℚ) : QRes :=
  let q2 := { q with history := q.history ++ " value(" ++ renderQ v ++ ")" }
  let q3 := q2.filterCalls (valuePred v)
  if q3.checkMin ∧ (q3.calls.length : ℤ) < q3.minCalls then
    .error (q3.fatalf log buf ("Expected metric value '" ++ renderQ v ++ "'"))
  else .ok q3

/-- Go `fmt`'s `%10s`: left-pad with spaces to width 10. -/
def pad10 (s : String) : String :=
  if s.length < 10 then String.mk (List.replicate (10 - s.length) ' ') ++ s else s

/-- The `query.Text` predicate: events by text, metrics never. -/
def textPred (t : String) : Call → Bool
  | .metric _ => false
  | .event e => e.event.text == t

/-- `query.Text`. -/
def Query.textOp (log : List Call) (buf : String) (q : Query) (t : String) : QRes :=
  let q2 := { q with history := q.history ++ " text(" ++ pad10 t ++ ")" }
  let q3 := q2.filterCalls (textPred t)
  if q3.checkMin ∧ (q3.calls.length : ℤ) < q3.minCalls then
    .error (q3.fatalf log buf ("Expected event text '" ++ t ++ "'"))
  else .ok q3

/-- The `query.Tag` predicate: both variants, by exact tag value. -/
def tagPred (name value : String) (call : Call) : Bool :=
  match mapGet call.tags name with
  | some v => v == value
  | none => false

/-- `query.Tag`. -/
def Query.tagOp (log : List Call) (buf : String) (q : Query) (name value : String) : QRes :=
  let q2 := { q with history := q.history ++ " tag(" ++ name ++ ", " ++ value ++ ")" }
  let q3 := q2.filterCalls (tagPred name value)
  if q3.checkMin ∧ (q3.calls.length : ℤ) < q3.minCalls then
    .error (q3.fatalf log buf ("Expected tag '" ++ name ++ "' with value '" ++ value ++ "'"))
  else .ok q3

/-- The `query.TagName` predicate: both variants, by tag presence. -/
def tagNamePred (name : String) (call : Call) : Bool :=
  (mapGet call.tags name).isSome

/-- `query.TagName`. -/
def Query.tagNameOp (log : List Call) (buf : String) (q : Query) (name : String) : QRes :=
  let q2 := { q with history := q.history ++ " tag(" ++ name ++ ")" }
  let q3 := q2.filterCalls (tagNamePred name)
  if q3.checkMin ∧ (q3.calls.length : ℤ) < q3.minCalls then
    .error (q3.fatalf log buf ("Expected tag '" ++ name ++ "'"))
  else .ok q3

/-- Modelled from the spec: the repository's test `TestRecorderWithRate` calls
a `Rate(r)` query filter, but no `Rate` method appears in the query
implementation under src/. Spec: "`Rate(r)`: keep only MetricCalls whose rate
equals `r`." The predicate keeps metrics whose rate equals `r` and drops
every event. -/
def ratePred (r : ℚ) : Call → Bool
  | .metric m => m.rate == r
  | .event _ => false

/-- Modelled from the spec: the `Rate(r)` filter operation absent from src/,
in the same shape as the other filter operations (narrow, then fail-fast
when `checkMin` is set). -/
def Query.rateOp (log : List Call) (buf : String) (q : Query) (r : ℚ) : QRes :=
  let q2 := { q with history := q.history ++ " rate(" ++ renderQ r ++ ")" }
  let q3 := q2.filterCalls (ratePred r)
  if q3.checkMin ∧ (q3.calls.length : ℤ) < q3.minCalls then
    .error (q3.fatalf log buf ("Expected metric with rate '" ++ renderQ r ++ "'"))
  else .ok q3

/-- `RecorderClient.Expect`: snapshot of the log, threshold 1, fail-fast on,
then the ID pre-filter. -/
def RecorderClient.expect (c : RecorderClient) (log : List Call) (buf : String)
    (id : String) : QRes :=
  Query.idOp log buf ⟨log, c, 1, true, ""⟩ id

/-- `RecorderClient.ExpectContains`: as `Expect`, but pre-filtered by
substring containment. -/
def RecorderClient.expectContains (c : RecorderClient) (log : List Call) (buf : String)
    (component : String) : QRes :=
  Query.containsOp log buf ⟨log, c, 1, true, ""⟩ component

/-- `RecorderClient.If`: as `Expect` but with `checkMin` off. -/
def RecorderClient.ifQuery (c : RecorderClient) (log : List Call) (buf : String)
    (id : String) : QRes :=
  Query.idOp log buf ⟨log, c, 1, false, ""⟩ id

/-- `DataDogClient` (src/metrics/datadog.go): tags are a flat `[]string` of
rendered `key:value` entries, not a map. -/
structure DataDogClient where
  rate : ℚ
  tags : List String
deriving DecidableEq

/-- A fresh DataDog client: rate 1.0, no tags (the statsd transport is out of
scope). -/
def NewDataDogClient : DataDogClient := ⟨1, []⟩

/-- `cloneTagsWithMap` from the source: copy the rendered tag list and append
one `key:value` entry per map entry — nothing is overridden or deduplicated. -/
def cloneTagsWithMap (original : List String) (newTags : TagMap) : List String :=
  original ++ newTags.map fun p => buildTag p.1 p.2

/-- `DataDogClient.WithTags` (src/metrics/datadog.go:207-213). -/
def DataDogClient.withTags (c : DataDogClient) (tags : TagMap) : DataDogClient :=
  { c with tags := cloneTagsWithMap c.tags tags }

/-- One chainable filter step of the query engine, used to state the
fail-fast property uniformly over all of them. -/
inductive FilterStep where
  | byId (id : String)
  | byContains (component : String)
  | byValue (v : ℚ)
  | byText (t : String)
  | byTag (name value : String)
  | byTagName (name : String)
  | byMinTimes (num : ℤ)
deriving DecidableEq

/-- Dispatch a filter step to the corresponding query operation. -/
def Query.applyStep (log : List Call) (buf : String) (q : Query) : FilterStep → QRes
  | .byId id => Query.idOp log buf q id
  | .byContains component => Query.containsOp log buf q component
  | .byValue v => Query.valueOp log buf q v
  | .byText t => Query.textOp log buf q t
  | .byTag n v => Query.tagOp log buf q n v
  | .byTagName n => Query.tagNameOp log buf q n
  | .byMinTimes n => Query.minTimes log buf q n

/-- Whether a query operation ended in a reported failure. -/
def QRes.failed : QRes → Bool
  | .ok _ => false
  | .error _ => true

/-! Lookup and key lemmas for the Go-map model. -/

theorem orO_none_right (a : Option String) : orO a none = a := by
  cases a <;> rfl

theorem orO_assoc (a b c : Option String) :
    orO (orO a b) c = orO a (orO b c) := by
  cases a <;> cases b <;> rfl

theorem mapGet_mapInsert (m : TagMap) (k v key : String) :
    mapGet (mapInsert m k v) key = if key = k then some v else mapGet m key := by
  induction m with
  | nil => simp [mapInsert, mapGet]
  | cons p rest ih =>
    obtain ⟨k1, v1⟩ := p
    by_cases hk : k = k1
    · subst hk
      by_cases hkey : key = k
      · simp [mapInsert, mapGet, hkey]
      · simp [mapInsert, mapGet, hkey]
    · simp only [mapInsert, if_neg hk, mapGet]
      by_cases hkey : key = k1
      · subst hkey
        have hne : ¬(key = k) := fun h => hk h.symm
        simp [if_neg hne]
      · simp [if_neg hkey, ih]

theorem mapGet_append (a b : TagMap) (key : String) :
    mapGet (a ++ b) key = orO (mapGet a key) (mapGet b key) := by
  induction a with
  | nil => simp [mapGet, orO]
  | cons p rest ih =>
    obtain ⟨k1, v1⟩ := p
    by_cases hkey : key = k1
    · subst hkey
      simp [mapGet, orO]
    · simp [mapGet, if_neg hkey, ih]

theorem mapGet_mapCopyInto (src : TagMap) (dst : TagMap) (key : String) :
    mapGet (mapCopyInto dst src) key = orO (revGet src key) (mapGet dst key) := by
  induction src generalizing dst with
  | nil => simp [mapCopyInto, revGet, mapGet, orO]
  | cons p rest ih =>
    obtain ⟨k, v⟩ := p
    have hstep : mapCopyInto dst ((k, v) :: rest) = mapCopyInto (mapInsert dst k v) rest := rfl
    rw [hstep, ih]
    simp only [revGet, List.reverse_cons, mapGet_append, mapGet_mapInsert]
    by_cases hkey : key = k
    · subst hkey
      simp [mapGet, orO_assoc, orO]
      cases mapGet rest.reverse key <;> rfl
    · simp [mapGet, if_neg hkey, orO_none_right]

theorem mapGet_combine (o ov : TagMap) (key : String) :
    mapGet (combine o ov) key = orO (revGet ov key) (revGet o key) := by
  simp [combine, mapGet_mapCopyInto, mapGet, orO_none_right]

theorem mem_keysOf_mapInsert (m : TagMap) (k v x : String) :
    x ∈ keysOf (mapInsert m k v) ↔ x ∈ keysOf m ∨ x = k := by
  induction m with
  | nil => simp [mapInsert, keysOf]
  | cons p rest ih =>
    obtain ⟨k1, v1⟩ := p
    by_cases hk : k = k1
    · subst hk
      simp [mapInsert, keysOf]
      tauto
    · simp only [mapInsert, if_neg hk, keysOf, List.map_cons, List.mem_cons]
      have ih2 := ih
      simp only [keysOf] at ih2
      rw [ih2]
      tauto

theorem nodupKeys_mapInsert (m : TagMap) (k v : String) (h : NodupKeys m) :
    NodupKeys (mapInsert m k v) := by
  induction m with
  | nil => simp [mapInsert, NodupKeys, keysOf]
  | cons p rest ih =>
    obtain ⟨k1, v1⟩ := p
    simp only [NodupKeys, keysOf, List.map_cons, List.nodup_cons] at h
    by_cases hk : k = k1
    · subst hk
      simpa [mapInsert, NodupKeys, keysOf] using h
    · have hrest := ih h.2
      simp only [mapInsert, if_neg hk, NodupKeys, keysOf, List.map_cons, List.nodup_cons]
      refine ⟨?_, hrest⟩
      intro hmem
      rw [show (List.map Prod.fst (mapInsert rest k v)) = keysOf (mapInsert rest k v) from rfl,
        mem_keysOf_mapInsert] at hmem
      rcases hmem with hmem | hmem
      · exact h.1 hmem
      · exact hk hmem.symm

theorem nodupKeys_mapCopyInto (src dst : TagMap) (h : NodupKeys dst) :
    NodupKeys (mapCopyInto dst src) := by
  induction src generalizing dst with
  | nil => exact h
  | cons p rest ih => exact ih (mapInsert dst p.1 p.2) (nodupKeys_mapInsert dst p.1 p.2 h)

theorem nodupKeys_combine (o ov : TagMap) : NodupKeys (combine o ov) := by
  refine nodupKeys_mapCopyInto ov _ (nodupKeys_mapCopyInto o [] ?_)
  simp [NodupKeys, keysOf]

theorem mapGet_eq_none_of_notMem (m : TagMap) (key : String) (h : key ∉ keysOf m) :
    mapGet m key = none := by
  induction m with
  | nil => rfl
  | cons p rest ih =>
    obtain ⟨k1, v1⟩ := p
    simp only [keysOf, List.map_cons, List.mem_cons, not_or] at h
    simp [mapGet, if_neg h.1, ih (by simpa [keysOf] using h.2)]

theorem revGet_eq_mapGet (m : TagMap) (key : String) (h : NodupKeys m) :
    revGet m key = mapGet m key := by
  induction m with
  | nil => rfl
  | cons p rest ih =>
    obtain ⟨k, v⟩ := p
    simp only [NodupKeys, keysOf, List.map_cons, List.nodup_cons] at h
    have htail : revGet rest key = mapGet rest key := ih h.2
    simp only [revGet, List.reverse_cons, mapGet_append] at *
    by_cases hkey : key = k
    · subst hkey
      have : mapGet rest key = none :=
        mapGet_eq_none_of_notMem rest key (by simpa [keysOf] using h.1)
      rw [htail, this]
      simp [mapGet, orO]
    · rw [htail]
      simp [mapGet, if_neg hkey, orO_none_right]

/-! Claim theorems. -/

/-- C1: refuted as stated — with a non-empty tag mapping, `Event` writes into
the nil local map `tagMapCopy` and panics (`none`), appending nothing; the
claimed behaviour only happens when the handle carries no tags, where exactly
one `EventCall` (with the empty snapshot) is appended and no rate is stored
(an `EventCall` has no rate field at all). -/
theorem event_nil_map_code_bug :
    RecorderClient.event { NewRecorderClient with tagMap := [("a", "b")] } [] ⟨"t", "d"⟩
      = none ∧
    RecorderClient.event NewRecorderClient [] ⟨"t", "d"⟩
      = some [Call.event ⟨⟨"t", "d"⟩, []⟩] :=
  ⟨rfl, rfl⟩

/-- C2: refuted as stated — `query.ID` has no wildcard branch, so `ID("*")`
keeps only calls literally named `"*"`: on a log holding one metric named
`"foo"` it keeps nothing, although the claim (and the source's own doc
comments) say `"*"` matches every call. The first conjunct evaluates the
whole `ID` step of an `If("*")` query; the others evaluate the predicate. -/
theorem id_wildcard_code_bug :
    Query.idOp [] ""
        ⟨[Call.metric ⟨"foo", 1, 1, []⟩], NewRecorderClient.withTest, 1, false, ""⟩ "*"
      = .ok ⟨[], NewRecorderClient.withTest, 1, false, " id(*)"⟩ ∧
    idPred "*" (Call.metric ⟨"foo", 1, 1, []⟩) = false ∧
    idPred "foo" (Call.metric ⟨"foo", 1, 1, []⟩) = true :=
  ⟨rfl, rfl, rfl⟩

/-- C7: `Accept` fails exactly when fewer calls than the threshold remain,
`Reject` fails exactly when at least the threshold remain, and on success
both hand back the query with its call set untouched. -/
theorem accept_reject_semantics (log : List Call) (buf : String) (q : Query) :
    ((Query.accept log buf q).failed = true ↔ (q.calls.length : ℤ) < q.minCalls) ∧
    ((Query.reject log buf q).failed = true ↔ q.minCalls ≤ (q.calls.length : ℤ)) ∧
    (∀ q2, Query.accept log buf q = .ok q2 → q2 = q) ∧
    (∀ q2, Query.reject log buf q = .ok q2 → q2 = q) := by
  refine ⟨?_, ?_, ?_, ?_⟩
  · unfold Query.accept
    split
    · split <;> simpa [QRes.failed]
    · simpa [QRes.failed] using by omega
  · unfold Query.reject
    split
    · simpa [QRes.failed]
    · simpa [QRes.failed] using by omega
  · intro q2 h
    unfold Query.accept at h
    split at h
    · split at h <;> cases h
    · cases h; rfl
  · intro q2 h
    unfold Query.reject at h
    split at h
    · cases h
    · cases h; rfl

/-- C7 witness: on an empty call set with threshold 1, `Accept` fails and
`Reject` succeeds without touching the call set. -/
theorem accept_reject_semantics_witness :
    (Query.accept [] "" ⟨[], NewRecorderClient.withTest, 1, false, ""⟩).failed = true ∧
    Query.mk [] NewRecorderClient.withTest 1 false ""
      = ⟨[], NewRecorderClient.withTest, 1, false, ""⟩ :=
  ⟨(accept_reject_semantics [] "" ⟨[], NewRecorderClient.withTest, 1, false, ""⟩).1.mpr
      (by decide),
    (accept_reject_semantics [] "" ⟨[], NewRecorderClient.withTest, 1, false, ""⟩).2.2.2
      _ rfl⟩

/-- C10: `WithRate` stores any rate verbatim with no validation, and every
metric-emitting call on the rated handle unconditionally appends exactly one
`MetricCall` whose rate field is that value. -/
theorem withRate_no_validation_no_sampling (c : RecorderClient) (r : ℚ) (log : List Call)
    (name : String) (v : ℚ) (n : ℤ) :
    (c.withRate r).rate = r ∧
    (c.withRate r).logCall log name v
      = log ++ [Call.metric ⟨name, v, r, tagMapCopy (c.withRate r).tagMap⟩] ∧
    (c.withRate r).count log name n
      = log ++ [Call.metric ⟨name, (n : ℚ), r, tagMapCopy (c.withRate r).tagMap⟩] ∧
    ((c.withRate r).logCall log name v).length = log.length + 1 := by
  refine ⟨rfl, rfl, rfl, ?_⟩
  simp [RecorderClient.logCall]

/-- C3: the spec-modelled `Rate(r)` filter keeps exactly the metric calls
whose rate equals `r`, drops every event call, and preserves order (the
result is a `List.filter` of the input). -/
theorem rate_filter_spec (log : List Call) (buf : String) (q : Query) (r : ℚ) (q2 : Query)
    (h : Query.rateOp log buf q r = .ok q2) :
    q2.calls = q.calls.filter (ratePred r) ∧
    (∀ call, call ∈ q2.calls ↔ call ∈ q.calls ∧ ∃ m, call = Call.metric m ∧ m.rate = r) ∧
    (∀ e, Call.event e ∈ q2.calls → False) := by
  have hcalls : q2.calls = q.calls.filter (ratePred r) := by
    simp only [Query.rateOp, Query.filterCalls] at h
    split at h
    · cases h
    · cases h; rfl
  refine ⟨hcalls, ?_, ?_⟩
  · intro call
    rw [hcalls, List.mem_filter]
    constructor
    · rintro ⟨hmem, hpred⟩
      refine ⟨hmem, ?_⟩
      cases call with
      | metric m => exact ⟨m, rfl, by simpa [ratePred] using hpred⟩
      | event e => simp [ratePred] at hpred
    · rintro ⟨hmem, m, rfl, hrate⟩
      exact ⟨hmem, by simp [ratePred, hrate]⟩
  · intro e he
    rw [hcalls, List.mem_filter] at he
    simp [ratePred] at he

/-- C3 witness: a concrete run of the Rate filter over one metric at rate 2
and one event. -/
theorem rate_filter_spec_witness :
    (Query.mk [Call.metric ⟨"sampled", 1, 2, []⟩] NewRecorderClient.withTest 1 true
        " rate(2)").calls
      = List.filter (ratePred 2)
          [Call.metric ⟨"sampled", 1, 2, []⟩, Call.event ⟨⟨"t", "d"⟩, []⟩] :=
  (rate_filter_spec [] ""
      ⟨[Call.metric ⟨"sampled", 1, 2, []⟩, Call.event ⟨⟨"t", "d"⟩, []⟩],
        NewRecorderClient.withTest, 1, true, ""⟩ 2
      ⟨[Call.metric ⟨"sampled", 1, 2, []⟩], NewRecorderClient.withTest, 1, true, " rate(2)"⟩
      rfl).1

/-- C6: `Expect` and `ExpectContains` start at threshold 1 with fail-fast on
(any query they hand back already satisfies the threshold), `If` applies the
same ID pre-filter with fail-fast off, every filter step applied to a
fail-fast query re-checks the threshold (an `ok` result always satisfies it),
and no filter step applied to a non-fail-fast query can fail. -/
theorem expect_if_threshold_semantics (c : RecorderClient) (log : List Call) (buf : String)
    (id text2 : String) :
    (∀ q2, c.expect log buf id = .ok q2 →
      q2.minCalls = 1 ∧ q2.checkMin = true ∧ q2.calls = log.filter (idPred id) ∧
        1 ≤ (q2.calls.length : ℤ)) ∧
    (∀ q2, c.expectContains log buf text2 = .ok q2 →
      q2.minCalls = 1 ∧ q2.checkMin = true ∧
        q2.calls = log.filter (fun call => strContains call.callString text2) ∧
        1 ≤ (q2.calls.length : ℤ)) ∧
    c.ifQuery log buf id
      = .ok ⟨log.filter (idPred id), c, 1, false, " id(" ++ id ++ ")"⟩ ∧
    (∀ step q q2, q.checkMin = true → Query.applyStep log buf q step = .ok q2 →
      q2.minCalls ≤ (q2.calls.length : ℤ)) ∧
    (∀ step q, q.checkMin = false →
      ∃ q2, Query.applyStep log buf q step = .ok q2 ∧ q2.checkMin = false) := by
  refine ⟨?_, ?_, ?_, ?_, ?_⟩
  · intro q2 h
    simp only [RecorderClient.expect, Query.idOp, Query.filterCalls] at h
    split at h
    · cases h
    · rename_i hneg
      cases h
      refine ⟨rfl, rfl, rfl, ?_⟩
      simp only [not_and, not_lt] at hneg
      simpa using hneg (by trivial)
  · intro q2 h
    simp only [RecorderClient.expectContains, Query.containsOp, Query.filterCalls] at h
    split at h
    · cases h
    · rename_i hneg
      cases h
      refine ⟨rfl, rfl, rfl, ?_⟩
      simp only [not_and, not_lt] at hneg
      simpa using hneg (by trivial)
  · simp only [RecorderClient.ifQuery, Query.idOp, Query.filterCalls]
    rw [if_neg (by simp)]
    simp
  · intro step q q2 hc h
    cases step with
    | byId id2 =>
      simp only [Query.applyStep, Query.idOp, Query.filterCalls] at h
      split at h
      · cases h
      · rename_i hneg
        cases h
        simp only [not_and, not_lt, hc] at hneg
        simpa using hneg (by trivial)
    | byContains component =>
      simp only [Query.applyStep, Query.containsOp, Query.filterCalls] at h
      split at h
      · cases h
      · rename_i hneg
        cases h
        simp only [not_and, not_lt, hc] at hneg
        simpa using hneg (by trivial)
    | byValue v =>
      simp only [Query.applyStep, Query.valueOp, Query.filterCalls] at h
      split at h
      · cases h
      · rename_i hneg
        cases h
        simp only [not_and, not_lt, hc] at hneg
        simpa using hneg (by trivial)
    | byText t =>
      simp only [Query.applyStep, Query.textOp, Query.filterCalls] at h
      split at h
      · cases h
      · rename_i hneg
        cases h
        simp only [not_and, not_lt, hc] at hneg
        simpa using hneg (by trivial)
    | byTag n v =>
      simp only [Query.applyStep, Query.tagOp, Query.filterCalls] at h
      split at h
      · cases h
      · rename_i hneg
        cases h
        simp only [not_and, not_lt, hc] at hneg
        simpa using hneg (by trivial)
    | byTagName n =>
      simp only [Query.applyStep, Query.tagNameOp, Query.filterCalls] at h
      split at h
      · cases h
      · rename_i hneg
        cases h
        simp only [not_and, not_lt, hc] at hneg
        simpa using hneg (by trivial)
    | byMinTimes n =>
      simp only [Query.applyStep, Query.minTimes, Query.accept] at h
      rw [if_pos (by simpa using hc)] at h
      split at h
      · split at h <;> cases h
      · rename_i hneg
        cases h
        simpa using hneg
  · intro step q hc
    cases step with
    | byId id2 =>
      refine ⟨⟨List.filter (idPred id2) q.calls, q.test, q.minCalls, q.checkMin,
        q.history ++ " id(" ++ id2 ++ ")"⟩, ?_, hc⟩
      simp only [Query.applyStep, Query.idOp, Query.filterCalls]
      rw [if_neg (by simp [hc])]
    | byContains component =>
      refine ⟨⟨List.filter (fun call => strContains call.callString component) q.calls,
        q.test, q.minCalls, q.checkMin,
        q.history ++ " contains(" ++ component ++ ")"⟩, ?_, hc⟩
      simp only [Query.applyStep, Query.containsOp, Query.filterCalls]
      rw [if_neg (by simp [hc])]
    | byValue v =>
      refine ⟨⟨List.filter (valuePred v) q.calls, q.test, q.minCalls, q.checkMin,
        q.history ++ " value(" ++ renderQ v ++ ")"⟩, ?_, hc⟩
      simp only [Query.applyStep, Query.valueOp, Query.filterCalls]
      rw [if_neg (by simp [hc])]
    | byText t =>
      refine ⟨⟨List.filter (textPred t) q.calls, q.test, q.minCalls, q.checkMin,
        q.history ++ " text(" ++ pad10 t ++ ")"⟩, ?_, hc⟩
      simp only [Query.applyStep, Query.textOp, Query.filterCalls]
      rw [if_neg (by simp [hc])]
    | byTag n v =>
      refine ⟨⟨List.filter (tagPred n v) q.calls, q.test, q.minCalls, q.checkMin,
        q.history ++ " tag(" ++ n ++ ", " ++ v ++ ")"⟩, ?_, hc⟩
      simp only [Query.applyStep, Query.tagOp, Query.filterCalls]
      rw [if_neg (by simp [hc])]
    | byTagName n =>
      refine ⟨⟨List.filter (tagNamePred n) q.calls, q.test, q.minCalls, q.checkMin,
        q.history ++ " tag(" ++ n ++ ")"⟩, ?_, hc⟩
      simp only [Query.applyStep, Query.tagNameOp, Query.filterCalls]
      rw [if_neg (by simp [hc])]
    | byMinTimes n =>
      refine ⟨⟨q.calls, q.test, n, q.checkMin,
        q.history ++ " minTimes(" ++ toString n ++ ")"⟩, ?_, hc⟩
      simp only [Query.applyStep, Query.minTimes]
      rw [if_neg (by simp [hc])]

/-- C6 witness: `Expect("x")` on a log holding one `"x"` metric hands back a
query at threshold 1 with fail-fast on, holding the ID-filtered calls, which
already satisfy the threshold. -/
theorem expect_if_threshold_semantics_witness :
    (Query.mk [Call.metric ⟨"x", 1, 1, []⟩] NewRecorderClient.withTest 1 true
        " id(x)").minCalls = 1 ∧
    (Query.mk [Call.metric ⟨"x", 1, 1, []⟩] NewRecorderClient.withTest 1 true
        " id(x)").checkMin = true ∧
    (Query.mk [Call.metric ⟨"x", 1, 1, []⟩] NewRecorderClient.withTest 1 true
        " id(x)").calls
      = List.filter (idPred "x") [Call.metric ⟨"x", 1, 1, []⟩] ∧
    1 ≤ ((Query.mk [Call.metric ⟨"x", 1, 1, []⟩] NewRecorderClient.withTest 1 true
        " id(x)").calls.length : ℤ) :=
  (expect_if_threshold_semantics NewRecorderClient.withTest
      [Call.metric ⟨"x", 1, 1, []⟩] "" "x" "t").1
    ⟨[Call.metric ⟨"x", 1, 1, []⟩], NewRecorderClient.withTest, 1, true, " id(x)"⟩ rfl

/-- C8: the serialized call formats. A metric renders as `NAME:VALUE[tags]`
at rate 1.0 and `NAME:VALUE(RATE)[tags]` otherwise, an event renders as
`TITLE:TEXT[tags]`, the rendered tag list is sorted ascending (and is a
permutation of the raw rendered tags), and `Count("foo", 5)` on a fresh
client records a call whose string form is exactly `foo:5[]`. -/
theorem call_string_format (m : MetricCall) (e : EventCall) :
    (m.rate = 1 → m.callString =
      m.name ++ ":" ++ renderQ m.value ++ renderSlice (sortStrings (mapToStrings m.tagMap))) ∧
    (m.rate ≠ 1 → m.callString =
      m.name ++ ":" ++ renderQ m.value ++ "(" ++ renderQ m.rate ++ ")" ++
        renderSlice (sortStrings (mapToStrings m.tagMap))) ∧
    e.callString = e.event.title ++ ":" ++ e.event.text ++
      renderSlice (sortStrings (mapToStrings e.tagMap)) ∧
    List.Sorted (· ≤ ·) (sortStrings (mapToStrings m.tagMap)) ∧
    List.Perm (sortStrings (mapToStrings m.tagMap)) (mapToStrings m.tagMap) ∧
    RecorderClient.count NewRecorderClient [] "foo" 5 = [Call.metric ⟨"foo", 5, 1, []⟩] ∧
    Call.callString (Call.metric ⟨"foo", 5, 1, []⟩) = "foo:5[]" := by
  refine ⟨?_, ?_, rfl, ?_, ?_, rfl, rfl⟩
  · intro h1
    simp [MetricCall.callString, h1]
  · intro h1
    simp [MetricCall.callString, h1]
  · exact List.sorted_insertionSort _ _
  · exact List.perm_insertionSort _ _

/-- C8 witness: the format theorem applied at the `Count("foo", 5)` call. -/
theorem call_string_format_witness :
    MetricCall.callString ⟨"foo", 5, 1, []⟩ =
      "foo" ++ ":" ++ renderQ 5 ++ renderSlice (sortStrings (mapToStrings [])) :=
  (call_string_format ⟨"foo", 5, 1, []⟩ ⟨⟨"t", "d"⟩, []⟩).1 rfl

/-- C4: refuted as stated — on the DataDog client `WithTags` appends rendered
tag strings and keeps duplicates, so after `WithTags({"t":"1"})` then
`WithTags({"t":"2"})` the effective tags are `["t:1", "t:2"]`: the shared key
appears twice and the first value survives, instead of the override-merge
(whose rendered form is `["t:2"]`). -/
theorem datadog_withTags_dup_key_cex :
    (DataDogClient.withTags (DataDogClient.withTags NewDataDogClient [("t", "1")])
        [("t", "2")]).tags = ["t:1", "t:2"] ∧
    sortStrings (mapToStrings (combine [("t", "1")] [("t", "2")])) = ["t:2"] ∧
    (DataDogClient.withTags (DataDogClient.withTags NewDataDogClient [("t", "1")])
        [("t", "2")]).tags
      ≠ sortStrings (mapToStrings (combine [("t", "1")] [("t", "2")])) :=
  ⟨by decide, by decide, by decide⟩

/-- C4 (amended): on the RecorderClient, chained `WithTags(A).WithTags(B)`
yields the override-merge — lookups see B first, then A, then the original
tags — the result has each key at most once, and the chaining is associative:
it agrees everywhere with `WithTags(combine A B)`. The DataDog client instead
appends rendered tag strings and keeps both values on a shared key
(see the counterexample). -/
theorem withTags_override_merge_assoc (c : RecorderClient) (A B : TagMap) (key : String)
    (hc : NodupKeys c.tagMap) (hA : NodupKeys A) (hB : NodupKeys B) :
    mapGet ((c.withTags A).withTags B).tagMap key
      = orO (mapGet B key) (orO (mapGet A key) (mapGet c.tagMap key)) ∧
    mapGet ((c.withTags A).withTags B).tagMap key
      = mapGet (c.withTags (combine A B)).tagMap key ∧
    NodupKeys ((c.withTags A).withTags B).tagMap := by
  have key1 : mapGet (combine (combine c.tagMap A) B) key
      = orO (mapGet B key) (orO (mapGet A key) (mapGet c.tagMap key)) := by
    rw [mapGet_combine, revGet_eq_mapGet _ _ hB,
      revGet_eq_mapGet _ _ (nodupKeys_combine _ _), mapGet_combine,
      revGet_eq_mapGet _ _ hA, revGet_eq_mapGet _ _ hc]
  have key2 : mapGet (combine c.tagMap (combine A B)) key
      = orO (mapGet B key) (orO (mapGet A key) (mapGet c.tagMap key)) := by
    rw [mapGet_combine, revGet_eq_mapGet _ _ (nodupKeys_combine A B),
      revGet_eq_mapGet _ _ hc, mapGet_combine, revGet_eq_mapGet _ _ hB,
      revGet_eq_mapGet _ _ hA, orO_assoc]
  refine ⟨?_, ?_, ?_⟩
  · show mapGet (combine (combine c.tagMap A) B) key = _
    exact key1
  · show mapGet (combine (combine c.tagMap A) B) key
      = mapGet (combine c.tagMap (combine A B)) key
    rw [key1, key2]
  · show NodupKeys (combine (combine c.tagMap A) B)
    exact nodupKeys_combine _ _

/-- C4 witness: the override-merge lookup at a concrete collision. -/
theorem withTags_override_merge_assoc_witness :
    mapGet ((NewRecorderClient.withTags [("a", "1"), ("k", "x")]).withTags
        [("a", "2")]).tagMap "a"
      = orO (mapGet [("a", "2")] "a")
          (orO (mapGet [("a", "1"), ("k", "x")] "a") (mapGet NewRecorderClient.tagMap "a")) :=
  (withTags_override_merge_assoc NewRecorderClient [("a", "1"), ("k", "x")] [("a", "2")] "a"
    (by unfold NodupKeys; decide) (by unfold NodupKeys; decide)
    (by unfold NodupKeys; decide)).1

/-! Substring lemmas used to state what a failure message includes. -/

theorem startsWithL_self_append (p b : List Char) : startsWithL (p ++ b) p = true := by
  induction p with
  | nil => cases b <;> rfl
  | cons c cs ih => simp [startsWithL, ih]

theorem hasSubL_of_startsWith (pat s : List Char) (h : startsWithL s pat = true) :
    hasSubL pat s = true := by
  cases s with
  | nil => exact h
  | cons c t => simp [hasSubL, h]

theorem hasSubL_append_left (a pat s : List Char) (h : hasSubL pat s = true) :
    hasSubL pat (a ++ s) = true := by
  induction a with
  | nil => simpa
  | cons c cs ih => simp [hasSubL, ih]

/-- When a string is literally built as `a ++ x ++ b`, `strings.Contains`
finds `x` in it. -/
theorem strContains_parts (a x b : String) : strContains (a ++ x ++ b) x = true := by
  show hasSubL x.toList (a ++ x ++ b).toList = true
  have hdata : (a ++ x ++ b).toList = a.toList ++ (x.toList ++ b.toList) := by
    show (a ++ x ++ b).data = a.data ++ (x.data ++ b.data)
    rw [String.data_append, String.data_append, List.append_assoc]
  rw [hdata]
  exact hasSubL_append_left _ _ _ (hasSubL_of_startsWith _ _ (startsWithL_self_append _ _))

/-- Any reported message built by the direct `q.test.Fatalf` funnel contains
the dump of the entire unfiltered call log. -/
theorem failWith_dump (log : List Call) (buf : String) (q : Query) (msg m : String)
    (h : Query.failWith log buf q msg = .fatal m) :
    strContains m (stackInfo log) = true := by
  unfold Query.failWith RecorderClient.fatalf at h
  by_cases ht : q.test.hasTest = true
  · rw [if_pos ht] at h
    simp only [Failure.fatal.injEq] at h
    subst h
    exact strContains_parts (msg ++ " Current metrics stack:\n") (stackInfo log) buf
  · rw [if_neg ht] at h
    cases h

/-- Any reported message built by `query.fatalf` contains both the dump of
the entire unfiltered call log and the `Query was '...'` trace. -/
theorem fatalf_dump_and_trace (log : List Call) (buf : String) (q : Query) (msg m : String)
    (h : Query.fatalf log buf q msg = .fatal m) :
    strContains m (stackInfo log) = true ∧
    strContains m ("Query was '" ++ trimSpace q.history ++ "'.") = true := by
  have hfail : Query.failWith log buf q
      (msg ++ ". Query was '" ++ trimSpace q.history ++ "'.") = .fatal m := h
  refine ⟨failWith_dump _ _ _ _ _ hfail, ?_⟩
  unfold Query.failWith RecorderClient.fatalf at hfail
  by_cases ht : q.test.hasTest = true
  · rw [if_pos ht] at hfail
    simp only [Failure.fatal.injEq] at hfail
    subst hfail
    have hm : ((msg ++ ". Query was '" ++ trimSpace q.history ++ "'.") ++
          " Current metrics stack:\n" ++ stackInfo log ++ buf)
        = (msg ++ ". ") ++ ("Query was '" ++ trimSpace q.history ++ "'.") ++
            (" Current metrics stack:\n" ++ stackInfo log ++ buf) := by
      apply String.ext
      simp [String.data_append, List.append_assoc]
    rw [hm]
    exact strContains_parts _ _ _
  · rw [if_neg ht] at hfail
    cases hfail

/-- C5: refuted as stated — the `Contains` fail-fast path reports through
`q.test.Fatalf` directly, so its message carries the full log dump but no
trace of the applied filter operations: `ExpectContains("b")` over a log
holding `Incr("one")` delivers exactly the message below, which contains
neither the `Query was` marker nor the `contains(b)` trace entry (while it
does contain the dump `one:1[]`). -/
theorem contains_failure_no_trace_cex :
    RecorderClient.expectContains NewRecorderClient.withTest
        [Call.metric ⟨"one", 1, 1, []⟩] "" "b"
      = .error (.fatal
          "Expected metric or event to contain 'b' Current metrics stack:\none:1[]") ∧
    strContains "Expected metric or event to contain 'b' Current metrics stack:\none:1[]"
      "Query was" = false ∧
    strContains "Expected metric or event to contain 'b' Current metrics stack:\none:1[]"
      "contains(b)" = false ∧
    strContains "Expected metric or event to contain 'b' Current metrics stack:\none:1[]"
      "one:1[]" = true :=
  ⟨rfl, by decide, by decide, by decide⟩

/-- C5 (amended): every failing check's reporter message contains the dump of
the entire unfiltered call log, because every path funnels through
`RecorderClient.Fatalf`; the `Query was '...'` trace of the applied filters
is additionally contained on the `ID`, `Value`, `Text`, `Tag` and `TagName`
fail-fast paths, on `Reject`, and on `Accept` (hence `MinTimes`) when calls
remain — but not on the `Contains` fail-fast path, nor on `Accept` when no
calls remain, which call the reporter directly without the trace. -/
theorem failure_message_contents (log : List Call) (buf : String) (q : Query)
    (id component t tn tv : String) (v : ℚ) (n : ℤ) (m : String) :
    (Query.idOp log buf q id = .error (.fatal m) →
      strContains m (stackInfo log) = true ∧
      strContains m
        ("Query was '" ++ trimSpace (q.history ++ " id(" ++ id ++ ")") ++ "'.") = true) ∧
    (Query.valueOp log buf q v = .error (.fatal m) →
      strContains m (stackInfo log) = true ∧
      strContains m
        ("Query was '" ++ trimSpace (q.history ++ " value(" ++ renderQ v ++ ")") ++ "'.")
        = true) ∧
    (Query.textOp log buf q t = .error (.fatal m) →
      strContains m (stackInfo log) = true ∧
      strContains m
        ("Query was '" ++ trimSpace (q.history ++ " text(" ++ pad10 t ++ ")") ++ "'.")
        = true) ∧
    (Query.tagOp log buf q tn tv = .error (.fatal m) →
      strContains m (stackInfo log) = true ∧
      strContains m
        ("Query was '" ++ trimSpace (q.history ++ " tag(" ++ tn ++ ", " ++ tv ++ ")") ++ "'.")
        = true) ∧
    (Query.tagNameOp log buf q tn = .error (.fatal m) →
      strContains m (stackInfo log) = true ∧
      strContains m
        ("Query was '" ++ trimSpace (q.history ++ " tag(" ++ tn ++ ")") ++ "'.") = true) ∧
    (Query.reject log buf q = .error (.fatal m) →
      strContains m (stackInfo log) = true ∧
      strContains m ("Query was '" ++ trimSpace q.history ++ "'.") = true) ∧
    (Query.accept log buf q = .error (.fatal m) →
      strContains m (stackInfo log) = true) ∧
    (q.calls ≠ [] → Query.accept log buf q = .error (.fatal m) →
      strContains m ("Query was '" ++ trimSpace q.history ++ "'.") = true) ∧
    (Query.containsOp log buf q component = .error (.fatal m) →
      strContains m (stackInfo log) = true) ∧
    (Query.minTimes log buf q n = .error (.fatal m) →
      strContains m (stackInfo log) = true) := by
  refine ⟨?_, ?_, ?_, ?_, ?_, ?_, ?_, ?_, ?_, ?_⟩
  · intro h
    simp only [Query.idOp, Query.filterCalls] at h
    split at h
    · simp only [Except.error.injEq] at h
      have h2 := fatalf_dump_and_trace _ _ _ _ _ h
      exact h2
    · exact absurd h (by simp)
  · intro h
    simp only [Query.valueOp, Query.filterCalls] at h
    split at h
    · simp only [Except.error.injEq] at h
      have h2 := fatalf_dump_and_trace _ _ _ _ _ h
      exact h2
    · exact absurd h (by simp)
  · intro h
    simp only [Query.textOp, Query.filterCalls] at h
    split at h
    · simp only [Except.error.injEq] at h
      have h2 := fatalf_dump_and_trace _ _ _ _ _ h
      exact h2
    · exact absurd h (by simp)
  · intro h
    simp only [Query.tagOp, Query.filterCalls] at h
    split at h
    · simp only [Except.error.injEq] at h
      have h2 := fatalf_dump_and_trace _ _ _ _ _ h
      exact h2
    · exact absurd h (by simp)
  · intro h
    simp only [Query.tagNameOp, Query.filterCalls] at h
    split at h
    · simp only [Except.error.injEq] at h
      have h2 := fatalf_dump_and_trace _ _ _ _ _ h
      exact h2
    · exact absurd h (by simp)
  · intro h
    simp only [Query.reject] at h
    split at h
    · simp only [Except.error.injEq] at h
      have h2 := fatalf_dump_and_trace _ _ _ _ _ h
      exact h2
    · exact absurd h (by simp)
  · intro h
    simp only [Query.accept] at h
    split at h
    · split at h
      · simp only [Except.error.injEq] at h
        have h2 := failWith_dump _ _ _ _ _ h
        exact h2
      · simp only [Except.error.injEq] at h
        have h2 := fatalf_dump_and_trace _ _ _ _ _ h
        exact h2.1
    · exact absurd h (by simp)
  · intro hne h
    simp only [Query.accept] at h
    split at h
    · split at h
      · rename_i hzero
        exact absurd (List.length_eq_zero.mp hzero) hne
      · simp only [Except.error.injEq] at h
        have h2 := fatalf_dump_and_trace _ _ _ _ _ h
        exact h2.2
    · exact absurd h (by simp)
  · intro h
    simp only [Query.containsOp, Query.filterCalls] at h
    split at h
    · simp only [Except.error.injEq] at h
      have h2 := failWith_dump _ _ _ _ _ h
      exact h2
    · exact absurd h (by simp)
  · intro h
    simp only [Query.minTimes, Query.accept] at h
    split at h
    · split at h
      · split at h
        · simp only [Except.error.injEq] at h
          have h2 := failWith_dump _ _ _ _ _ h
          exact h2
        · simp only [Except.error.injEq] at h
          have h2 := fatalf_dump_and_trace _ _ _ _ _ h
          exact h2.1
      · exact absurd h (by simp)
    · exact absurd h (by simp)

/-- C5 witness: a failing `ID` check over a non-empty log delivers a message
containing both the full log dump and the filter trace. -/
theorem failure_message_contents_witness :
    strContains
        "Expected metric or event with ID 'x'. Query was 'id(x)'. Current metrics stack:\none:1[]"
        (stackInfo [Call.metric ⟨"one", 1, 1, []⟩]) = true ∧
    strContains
        "Expected metric or event with ID 'x'. Query was 'id(x)'. Current metrics stack:\none:1[]"
        ("Query was '" ++ trimSpace ("" ++ " id(" ++ "x" ++ ")") ++ "'.") = true :=
  (failure_message_contents [Call.metric ⟨"one", 1, 1, []⟩] ""
      ⟨[Call.metric ⟨"one", 1, 1, []⟩], NewRecorderClient.withTest, 1, true, ""⟩
      "x" "c" "t" "tn" "tv" 0 0
      "Expected metric or event with ID 'x'. Query was 'id(x)'. Current metrics stack:\none:1[]").1
    rfl

end GoMetrics
